import Mathlib

/-!
Verification of the SdeLib entity-component substrate (`src/sde.h`,
`src/Entity.cpp`, `src/EntityNoParent.cpp`).

Modelling conventions:
- Heap object identity (a C++ pointer) is a `Nat` id.
- A concrete dynamic type (`std::type_index` of the most-derived class) is a
  `Nat` tag; two distinct concrete classes get distinct tags, so a strict
  subclass of `T` carries a tag different from `T`'s tag.
- `std::map<K, V>` is an association list with unique keys; `operator[]`
  assignment is `ainsert` (update in place or append), `erase` is `aerase`,
  lookup is `alookup`.
- `std::vector` is a `List`.
-/

namespace Sde

/-- Lookup of a key in an association list, mirroring `std::map::find`. -/
def alookup {α : Type} (m : List (Nat × α)) (k : Nat) : Option α :=
  match m with
  | [] => none
  | (k2, v) :: rest => if k2 = k then some v else alookup rest k

/-- Insert-or-assign, mirroring `std::map::operator[] = v`: replaces the value
at an existing key, otherwise adds the entry. -/
def ainsert {α : Type} (m : List (Nat × α)) (k : Nat) (v : α) : List (Nat × α) :=
  match m with
  | [] => [(k, v)]
  | (k2, v2) :: rest =>
      if k2 = k then (k, v) :: rest else (k2, v2) :: ainsert rest k v

/-- Erase of a key, mirroring `std::map::erase(iterator)` after a successful
`find`: removes the (unique) entry with that key, no-op when absent. -/
def aerase {α : Type} (m : List (Nat × α)) (k : Nat) : List (Nat × α) :=
  match m with
  | [] => []
  | (k2, v2) :: rest => if k2 = k then rest else (k2, v2) :: aerase rest k

/-- A component as seen by `Entity`: its heap identity, its concrete dynamic
type tag (`typeid` of the most-derived class), and its `m_active` flag.
`ComponentBase`'s constructor sets `m_active{ true }` (src/sde.h:86-88). -/
structure Component where
  id : Nat
  ty : Nat
  active : Bool
  deriving DecidableEq, Repr

/-- The construction of a `ComponentBase`-derived object of dynamic type `ty`
at address `id`: the constructor initializes the active flag to `true`. -/
def mkComponent (id ty : Nat) : Component :=
  { id := id, ty := ty, active := true }

/-- The state of an `Entity` (src/sde.h:149-241): the owned component vector
`m_component`, the `m_active` flag, and the restoration map `m_compActiveMap`
keyed by component identity.  `nextId` models the allocator: `make_unique`
returns an address distinct from every live object's. -/
structure Entity where
  components : List Component
  active : Bool
  compActiveMap : List (Nat × Bool)
  nextId : Nat
  deriving DecidableEq, Repr

/-- A freshly constructed `Entity`: `m_active{ true }`, no components, empty
restoration map. -/
def Entity.init : Entity :=
  { components := [], active := true, compActiveMap := [], nextId := 0 }

/-- One write `pair.first->setActive(pair.second)` through a component
pointer: the component with that identity gets the saved flag. -/
def restoreOne (cs : List Component) (k : Nat) (v : Bool) : List Component :=
  cs.map fun c => if c.id = k then { c with active := v } else c

/-- One iteration of the suspend loop body
`m_compActiveMap[up.get()] = up->active(); up->setActive(false);`:
the current flag is recorded in the map, then the component is deactivated. -/
def suspendStep (acc : List Component × List (Nat × Bool)) (c : Component) :
    List Component × List (Nat × Bool) :=
  (acc.1 ++ [{ c with active := false }], ainsert acc.2 c.id c.active)

/-- `Entity::setActive` (src/sde.h:162-181).  Sets `m_active` to `b`; when
resuming, iterates the restoration map writing each saved flag back through
the stored component pointer; when suspending, iterates the components,
snapshotting each current flag into the map and then deactivating it.
(The C++ resume iterates `std::map` in key order; entries have distinct keys
and each targets a distinct component, so the fold order is immaterial.) -/
def Entity.setActive (e : Entity) (b : Bool) : Entity :=
  if b then
    { e with
      active := true
      components :=
        e.compActiveMap.foldl (fun cs kv => restoreOne cs kv.1 kv.2) e.components }
  else
    let r := e.components.foldl suspendStep ([], e.compActiveMap)
    { e with active := false, components := r.1, compActiveMap := r.2 }

/-- `Entity::addComponent<T>(args...)` (src/sde.h:189-193): constructs a `T`
(dynamic type tag `ti`) at a fresh address and appends it to `m_component`. -/
def Entity.addComponent (e : Entity) (ti : Nat) : Entity :=
  { e with
    components := e.components ++ [mkComponent e.nextId ti]
    nextId := e.nextId + 1 }

/-- `Entity::getComponent<T>` (src/sde.h:194-206): the first component whose
dynamic type equals `T`'s, as `some`, else `nullptr` as `none`. -/
def Entity.getComponent (e : Entity) (ti : Nat) : Option Component :=
  e.components.find? fun c => c.ty = ti

/-- Erasure of the first component whose dynamic type tag is `ti`, mirroring
`m_component.erase(it)` at the iterator returned by `find_if`. -/
def removeFirstTy (cs : List Component) (ti : Nat) : List Component :=
  match cs with
  | [] => []
  | c :: rest => if c.ty = ti then rest else c :: removeFirstTy rest ti

/-- `Entity::removeComponent<T>` (src/sde.h:207-224): finds the first
component of dynamic type `T`; if found, erases its entry from
`m_compActiveMap` (when present) and erases the component; otherwise no-op. -/
def Entity.removeComponent (e : Entity) (ti : Nat) : Entity :=
  match e.components.find? (fun c => c.ty = ti) with
  | none => e
  | some c =>
      { e with
        components := removeFirstTy e.components ti
        compActiveMap := aerase e.compActiveMap c.id }

/-- `ComponentBase::setActive` called directly on an owned component
(src/sde.h:91-94), addressed by its identity. -/
def Entity.compSetActive (e : Entity) (k : Nat) (b : Bool) : Entity :=
  { e with
    components := e.components.map fun c => if c.id = k then { c with active := b } else c }

/-- The `initializeAllComponents` loop (src/EntityNoParent.cpp:12-16):
`for (auto &up : m_component) up->initialize();`.  Each virtual
`initialize()` call is observed by appending the component's identity to a
trace. -/
def Entity.initAllComponents (e : Entity) (trace : List Nat) : List Nat :=
  e.components.foldl (fun t c => t ++ [c.id]) trace

/-- The operations a client can perform on an `Entity` through its public
interface (component management and active-state control). -/
inductive Op where
  | addComp (ty : Nat)
  | removeComp (ty : Nat)
  | entSetActive (b : Bool)
  | compSetActive (id : Nat) (b : Bool)
  deriving DecidableEq, Repr

/-- Interpretation of one public operation on an `Entity`. -/
def Entity.applyOp (e : Entity) (op : Op) : Entity :=
  match op with
  | Op.addComp ty => e.addComponent ty
  | Op.removeComp ty => e.removeComponent ty
  | Op.entSetActive b => e.setActive b
  | Op.compSetActive k b => e.compSetActive k b

/-- The `Entity` reached from a fresh one by a sequence of operations. -/
def Entity.run (ops : List Op) : Entity :=
  ops.foldl Entity.applyOp Entity.init

/-- Well-formedness of an `Entity` state, as C++ guarantees it: owned
components are distinct heap objects with allocated addresses, the
`std::map` has unique keys, and every map key is a currently owned
component's identity. -/
def Entity.WF (e : Entity) : Prop :=
  (e.components.map Component.id).Nodup
  ∧ (∀ c ∈ e.components, c.id < e.nextId)
  ∧ (e.compActiveMap.map Prod.fst).Nodup
  ∧ (∀ kv ∈ e.compActiveMap, ∃ c ∈ e.components, c.id = kv.1)

/-! Association-list lemmas. -/

theorem alookup_ainsert {α : Type} (m : List (Nat × α)) (k k2 : Nat) (v : α) :
    alookup (ainsert m k v) k2 = if k2 = k then some v else alookup m k2 := by
  induction m with
  | nil =>
      by_cases h : k2 = k
      · simp [ainsert, alookup, h]
      · simp [ainsert, alookup, h, Ne.symm h]
  | cons hd tl ih =>
      obtain ⟨k3, v3⟩ := hd
      by_cases h3 : k3 = k
      · subst h3
        by_cases h2 : k2 = k3
        · simp [ainsert, alookup, h2]
        · simp [ainsert, alookup, h2, Ne.symm h2]
      · by_cases h2 : k2 = k3
        · subst h2
          simp [ainsert, alookup, h3, Ne.symm h3]
        · simp [ainsert, alookup, h3, h2, Ne.symm h2, ih]

theorem mem_keys_ainsert {α : Type} (m : List (Nat × α)) (k : Nat) (v : α) (k2 : Nat) :
    k2 ∈ (ainsert m k v).map Prod.fst ↔ k2 = k ∨ k2 ∈ m.map Prod.fst := by
  induction m with
  | nil => simp [ainsert]
  | cons hd tl ih =>
      obtain ⟨k3, v3⟩ := hd
      by_cases h3 : k3 = k
      · subst h3
        simp [ainsert]
      · simp only [ainsert, if_neg h3, List.map_cons, List.mem_cons, ih]
        tauto

theorem keys_nodup_ainsert {α : Type} (m : List (Nat × α)) (k : Nat) (v : α)
    (h : (m.map Prod.fst).Nodup) : ((ainsert m k v).map Prod.fst).Nodup := by
  induction m with
  | nil => simp [ainsert]
  | cons hd tl ih =>
      obtain ⟨k3, v3⟩ := hd
      simp only [List.map_cons, List.nodup_cons] at h
      by_cases h3 : k3 = k
      · subst h3
        simpa [ainsert] using h
      · simp only [ainsert, if_neg h3, List.map_cons, List.nodup_cons]
        refine ⟨fun hmem => ?_, ih h.2⟩
        rcases (mem_keys_ainsert tl k v k3).mp hmem with h4 | h4
        · exact h3 h4
        · exact h.1 h4

theorem alookup_eq_none {α : Type} (m : List (Nat × α)) (k : Nat)
    (h : k ∉ m.map Prod.fst) : alookup m k = none := by
  induction m with
  | nil => rfl
  | cons hd tl ih =>
      obtain ⟨k3, v3⟩ := hd
      simp only [List.map_cons, List.mem_cons] at h
      push_neg at h
      simp [alookup, Ne.symm h.1, ih h.2]

theorem alookup_mem_nodup {α : Type} {m : List (Nat × α)} {k : Nat} {v : α}
    (h : (m.map Prod.fst).Nodup) (hm : (k, v) ∈ m) : alookup m k = some v := by
  induction m with
  | nil => cases hm
  | cons hd tl ih =>
      obtain ⟨k3, v3⟩ := hd
      simp only [List.map_cons, List.nodup_cons] at h
      rcases List.mem_cons.mp hm with h2 | h2
      · cases h2
        simp [alookup]
      · have hk : k3 ≠ k := by
          intro he
          subst he
          exact h.1 (List.mem_map.mpr ⟨(k3, v), h2, rfl⟩)
        simp [alookup, hk, ih h.2 h2]

theorem aerase_sublist {α : Type} (m : List (Nat × α)) (k : Nat) :
    (aerase m k).Sublist m := by
  induction m with
  | nil => simp [aerase]
  | cons hd tl ih =>
      obtain ⟨k3, v3⟩ := hd
      by_cases h3 : k3 = k
      · simp only [aerase, if_pos h3]
        exact List.sublist_cons_self (k3, v3) tl
      · simp only [aerase, if_neg h3]
        exact ih.cons₂ (k3, v3)

theorem mem_aerase {α : Type} {m : List (Nat × α)} {k : Nat} {kv : Nat × α}
    (h : kv ∈ aerase m k) : kv ∈ m :=
  (aerase_sublist m k).mem h

theorem keys_nodup_aerase {α : Type} (m : List (Nat × α)) (k : Nat)
    (h : (m.map Prod.fst).Nodup) : ((aerase m k).map Prod.fst).Nodup :=
  h.sublist ((aerase_sublist m k).map Prod.fst)

theorem mem_aerase_ne {α : Type} {m : List (Nat × α)} {k : Nat} {kv : Nat × α}
    (hn : (m.map Prod.fst).Nodup) (h : kv ∈ aerase m k) : kv.1 ≠ k := by
  induction m with
  | nil => cases h
  | cons hd tl ih =>
      obtain ⟨k3, v3⟩ := hd
      simp only [List.map_cons, List.nodup_cons] at hn
      by_cases h3 : k3 = k
      · subst h3
        simp only [aerase, if_pos rfl] at h
        intro he
        exact hn.1 (he ▸ List.mem_map.mpr ⟨kv, h, rfl⟩)
      · simp only [aerase, if_neg h3] at h
        rcases List.mem_cons.mp h with h4 | h4
        · cases h4
          exact h3
        · exact ih hn.2 h4

/-! Characterization of the suspend loop and the resume loop. -/

/-- The restoration map after the suspend loop ran over `cs` starting from
map `m`: each component's current flag has been inserted under its id. -/
def snapMap (m : List (Nat × Bool)) (cs : List Component) : List (Nat × Bool) :=
  cs.foldl (fun m2 c => ainsert m2 c.id c.active) m

/-- The component list after the resume loop ran the entries of `m` over
`cs`. -/
def restoreAll (m : List (Nat × Bool)) (cs : List Component) : List Component :=
  m.foldl (fun cs2 kv => restoreOne cs2 kv.1 kv.2) cs

theorem suspendFold_fst (cs l : List Component) (m : List (Nat × Bool)) :
    (cs.foldl suspendStep (l, m)).1 = l ++ cs.map (fun c => { c with active := false }) := by
  induction cs generalizing l m with
  | nil => simp
  | cons c rest ih => simp [suspendStep, ih]

theorem suspendFold_snd (cs l : List Component) (m : List (Nat × Bool)) :
    (cs.foldl suspendStep (l, m)).2 = snapMap m cs := by
  induction cs generalizing l m with
  | nil => rfl
  | cons c rest ih => simp [suspendStep, snapMap, ih, List.foldl_cons]

theorem setActive_false_components (e : Entity) :
    (e.setActive false).components = e.components.map fun c => { c with active := false } := by
  simp [Entity.setActive, suspendFold_fst]

theorem setActive_false_map (e : Entity) :
    (e.setActive false).compActiveMap = snapMap e.compActiveMap e.components := by
  simp [Entity.setActive, suspendFold_snd]

theorem setActive_false_active (e : Entity) : (e.setActive false).active = false := by
  simp [Entity.setActive]

theorem setActive_true_components (e : Entity) :
    (e.setActive true).components = restoreAll e.compActiveMap e.components := rfl

theorem setActive_true_map (e : Entity) :
    (e.setActive true).compActiveMap = e.compActiveMap := rfl

theorem setActive_true_active (e : Entity) : (e.setActive true).active = true := rfl

theorem setActive_nextId (e : Entity) (b : Bool) : (e.setActive b).nextId = e.nextId := by
  cases b <;> rfl

theorem snapMap_keys_nodup (cs : List Component) (m : List (Nat × Bool))
    (h : (m.map Prod.fst).Nodup) : ((snapMap m cs).map Prod.fst).Nodup := by
  induction cs generalizing m with
  | nil => exact h
  | cons c rest ih => exact ih _ (keys_nodup_ainsert m c.id c.active h)

theorem mem_keys_snapMap (cs : List Component) (m : List (Nat × Bool)) (k : Nat)
    (h : k ∈ (snapMap m cs).map Prod.fst) :
    k ∈ m.map Prod.fst ∨ k ∈ cs.map Component.id := by
  induction cs generalizing m with
  | nil => exact Or.inl h
  | cons c rest ih =>
      rcases ih (ainsert m c.id c.active) h with h2 | h2
      · rcases (mem_keys_ainsert m c.id c.active k).mp h2 with h3 | h3
        · exact Or.inr (by simp [h3])
        · exact Or.inl h3
      · exact Or.inr (by simp [h2])

theorem alookup_snapMap_notmem (cs : List Component) (m : List (Nat × Bool)) (k : Nat)
    (h : k ∉ cs.map Component.id) : alookup (snapMap m cs) k = alookup m k := by
  induction cs generalizing m with
  | nil => rfl
  | cons c rest ih =>
      simp only [List.map_cons, List.mem_cons] at h
      push_neg at h
      have h2 := ih (ainsert m c.id c.active) h.2
      rwa [alookup_ainsert, if_neg h.1] at h2

theorem alookup_snapMap_mem (cs : List Component) (m : List (Nat × Bool))
    {c : Component} (hn : (cs.map Component.id).Nodup) (hc : c ∈ cs) :
    alookup (snapMap m cs) c.id = some c.active := by
  induction cs generalizing m with
  | nil => cases hc
  | cons c0 rest ih =>
      simp only [List.map_cons, List.nodup_cons] at hn
      rcases List.mem_cons.mp hc with h2 | h2
      · subst h2
        have h3 : c.id ∉ rest.map Component.id := hn.1
        rw [show snapMap m (c :: rest) = snapMap (ainsert m c.id c.active) rest from rfl,
          alookup_snapMap_notmem rest _ c.id h3, alookup_ainsert, if_pos rfl]
      · exact ih _ hn.2 h2

theorem restoreAll_eq_map (m : List (Nat × Bool)) (cs : List Component)
    (hm : (m.map Prod.fst).Nodup) :
    restoreAll m cs = cs.map fun c =>
      match alookup m c.id with
      | some v => { c with active := v }
      | none => c := by
  induction m generalizing cs with
  | nil =>
      simp only [restoreAll, List.foldl_nil, alookup]
      exact (List.map_id cs).symm
  | cons kv rest ih =>
      obtain ⟨k, v⟩ := kv
      simp only [List.map_cons, List.nodup_cons] at hm
      have step : restoreAll ((k, v) :: rest) cs = restoreAll rest (restoreOne cs k v) := rfl
      rw [step, ih _ hm.2, restoreOne, List.map_map]
      apply List.map_congr_left
      intro c _
      by_cases h : c.id = k
      · have hk : alookup rest k = none := alookup_eq_none rest k hm.1
        simp [Function.comp, h, alookup, hk]
      · simp [Function.comp, h, alookup, Ne.symm h]

theorem ids_restoreOne (cs : List Component) (k : Nat) (v : Bool) :
    (restoreOne cs k v).map Component.id = cs.map Component.id := by
  rw [restoreOne, List.map_map]
  apply List.map_congr_left
  intro c _
  by_cases h : c.id = k <;> simp [Function.comp, h]

theorem ids_restoreAll (m : List (Nat × Bool)) (cs : List Component) :
    (restoreAll m cs).map Component.id = cs.map Component.id := by
  induction m generalizing cs with
  | nil => rfl
  | cons kv rest ih =>
      have step : restoreAll (kv :: rest) cs = restoreAll rest (restoreOne cs kv.1 kv.2) := rfl
      rw [step, ih, ids_restoreOne]

theorem ids_inactive (cs : List Component) :
    ((cs.map fun c => { c with active := false }).map Component.id) = cs.map Component.id := by
  rw [List.map_map]
  rfl

/-- Core restoration property: suspending and then resuming returns the
component list (identities, types and active flags) to exactly its prior
value, given the C++ state invariants (distinct component objects, unique
map keys). -/
theorem suspend_resume_components (e : Entity)
    (h1 : (e.components.map Component.id).Nodup)
    (h2 : (e.compActiveMap.map Prod.fst).Nodup) :
    ((e.setActive false).setActive true).components = e.components := by
  rw [setActive_true_components, setActive_false_map, setActive_false_components,
    restoreAll_eq_map _ _ (snapMap_keys_nodup _ _ h2), List.map_map]
  have h3 : ∀ c ∈ e.components,
      ((fun c =>
        match alookup (snapMap e.compActiveMap e.components) c.id with
        | some v => { c with active := v }
        | none => c) ∘ fun c => { c with active := false }) c = id c := by
    intro c hc
    have hl : alookup (snapMap e.compActiveMap e.components) c.id = some c.active :=
      alookup_snapMap_mem _ _ h1 hc
    simp [Function.comp, hl]
  rw [List.map_congr_left h3, List.map_id]

/-- Claim C1: for every Entity with components whose active flags are
`a1..an`, `setActive(false)` followed immediately by `setActive(true)`
restores each component's active flag to its prior value, for every
combination of initial flags; suspending snapshots every current
component's flag into the restoration map before forcing all components
inactive, and resuming restores each component's individually saved flag
rather than forcing all active. -/
theorem claim_C1 (e : Entity)
    (h1 : (e.components.map Component.id).Nodup)
    (h2 : (e.compActiveMap.map Prod.fst).Nodup) :
    ((e.setActive false).setActive true).components = e.components
    ∧ ((e.setActive false).setActive true).active = true
    ∧ (∀ c ∈ e.components,
        alookup ((e.setActive false).compActiveMap) c.id = some c.active)
    ∧ (∀ c ∈ (e.setActive false).components, c.active = false) := by
  refine ⟨suspend_resume_components e h1 h2, setActive_true_active _, ?_, ?_⟩
  · intro c hc
    rw [setActive_false_map]
    exact alookup_snapMap_mem _ _ h1 hc
  · intro c hc
    rw [setActive_false_components] at hc
    rcases List.mem_map.mp hc with ⟨c0, _, h4⟩
    rw [← h4]

/-- An Entity with two components of distinct concrete types, the first
one's flag lowered: a representative mixed-flag state reached through the
public interface. -/
def demoEntity : Entity :=
  ((Entity.init.addComponent 0).addComponent 1).compSetActive 0 false

/-- Witness for C1 at a concrete mixed-flag Entity. -/
theorem claim_C1_witness :
    ((demoEntity.components.map Component.id).Nodup
      ∧ (demoEntity.compActiveMap.map Prod.fst).Nodup)
    ∧ (((demoEntity.setActive false).setActive true).components = demoEntity.components
      ∧ ((demoEntity.setActive false).setActive true).active = true
      ∧ (∀ c ∈ demoEntity.components,
          alookup ((demoEntity.setActive false).compActiveMap) c.id = some c.active)
      ∧ (∀ c ∈ (demoEntity.setActive false).components, c.active = false)) :=
  ⟨⟨by decide, by decide⟩, claim_C1 demoEntity (by decide) (by decide)⟩

/-- Claim C9 (implicit): `Entity::setActive` is not gated on the current
state and the restoration map is never cleared on resume; suspending twice
in a row overwrites each component's saved flag with `false`, so a
following resume leaves every component inactive; and resuming re-applies
whatever flags remain in the restoration map, overwriting any
per-component flag changes made since the last suspend. -/
theorem claim_C9 (e : Entity)
    (h1 : (e.components.map Component.id).Nodup)
    (h2 : (e.compActiveMap.map Prod.fst).Nodup) :
    (∀ a b, ({ e with active := a } : Entity).setActive b = e.setActive b)
    ∧ (∀ c ∈ e.components,
        alookup (((e.setActive false).setActive false).compActiveMap) c.id = some false)
    ∧ (∀ c ∈ (((e.setActive false).setActive false).setActive true).components,
        c.active = false)
    ∧ (∀ kv ∈ e.compActiveMap, ∀ c ∈ (e.setActive true).components,
        c.id = kv.1 → c.active = kv.2) := by
  have hs1_ids : ((e.setActive false).components.map Component.id).Nodup := by
    rw [setActive_false_components, ids_inactive]
    exact h1
  have hs1_keys : (((e.setActive false).compActiveMap).map Prod.fst).Nodup := by
    rw [setActive_false_map]
    exact snapMap_keys_nodup _ _ h2
  refine ⟨?_, ?_, ?_, ?_⟩
  · intro a b
    cases b <;> rfl
  · intro c hc
    have hc2 : ({ c with active := false } : Component) ∈ (e.setActive false).components := by
      rw [setActive_false_components]
      exact List.mem_map.mpr ⟨c, hc, rfl⟩
    have h3 := alookup_snapMap_mem (e.setActive false).components
      ((e.setActive false).compActiveMap) hs1_ids hc2
    rw [← setActive_false_map (e.setActive false)] at h3
    exact h3
  · intro c hc
    rw [suspend_resume_components (e.setActive false) hs1_ids hs1_keys] at hc
    rw [setActive_false_components] at hc
    rcases List.mem_map.mp hc with ⟨c0, _, h4⟩
    rw [← h4]
  · intro kv hkv c hc hid
    rw [setActive_true_components, restoreAll_eq_map _ _ h2] at hc
    rcases List.mem_map.mp hc with ⟨c0, _, h4⟩
    have hl : alookup e.compActiveMap kv.1 = some kv.2 := alookup_mem_nodup h2 hkv
    by_cases h5 : alookup e.compActiveMap c0.id = none
    · rw [h5] at h4
      simp only at h4
      subst h4
      rw [hid] at h5
      rw [hl] at h5
      cases h5
    · rcases Option.ne_none_iff_exists.mp h5 with ⟨v, hv⟩
      rw [← hv] at h4
      simp only at h4
      subst h4
      simp only at hid
      rw [hid] at hv
      rw [hl] at hv
      cases hv
      rfl

/-- Witness for C9 at a concrete mixed-flag Entity. -/
theorem claim_C9_witness :
    ((demoEntity.components.map Component.id).Nodup
      ∧ (demoEntity.compActiveMap.map Prod.fst).Nodup)
    ∧ ((∀ a b, ({ demoEntity with active := a } : Entity).setActive b = demoEntity.setActive b)
      ∧ (∀ c ∈ demoEntity.components,
          alookup (((demoEntity.setActive false).setActive false).compActiveMap) c.id
            = some false)
      ∧ (∀ c ∈ (((demoEntity.setActive false).setActive false).setActive true).components,
          c.active = false)
      ∧ (∀ kv ∈ demoEntity.compActiveMap, ∀ c ∈ (demoEntity.setActive true).components,
          c.id = kv.1 → c.active = kv.2)) :=
  ⟨⟨by decide, by decide⟩, claim_C9 demoEntity (by decide) (by decide)⟩

/-! Lemmas about `removeFirstTy` and `find?`, and well-formedness
preservation for every public Entity operation. -/

theorem removeFirstTy_sublist (cs : List Component) (ti : Nat) :
    (removeFirstTy cs ti).Sublist cs := by
  induction cs with
  | nil => simp [removeFirstTy]
  | cons c rest ih =>
      by_cases h : c.ty = ti
      · simp only [removeFirstTy, if_pos h]
        exact List.sublist_cons_self c rest
      · simp only [removeFirstTy, if_neg h]
        exact ih.cons₂ c

theorem mem_removeFirstTy_of_ty_ne {cs : List Component} {ti : Nat} {c : Component}
    (hc : c ∈ cs) (hne : c.ty ≠ ti) : c ∈ removeFirstTy cs ti := by
  induction cs with
  | nil => cases hc
  | cons c0 rest ih =>
      by_cases h : c0.ty = ti
      · simp only [removeFirstTy, if_pos h]
        rcases List.mem_cons.mp hc with h2 | h2
        · subst h2
          exact absurd h hne
        · exact h2
      · simp only [removeFirstTy, if_neg h]
        rcases List.mem_cons.mp hc with h2 | h2
        · exact h2 ▸ List.mem_cons_self c0 _
        · exact List.mem_cons_of_mem c0 (ih h2)

theorem mem_removeFirstTy_of_id_ne {cs : List Component} {ti : Nat} {c c2 : Component}
    (hf : cs.find? (fun c => c.ty = ti) = some c) (h2 : c2 ∈ cs)
    (hne : c2.id ≠ c.id) : c2 ∈ removeFirstTy cs ti := by
  induction cs with
  | nil => cases h2
  | cons c0 rest ih =>
      by_cases h : c0.ty = ti
      · have hc0 : c0 = c := by
          have := List.find?_cons_of_pos (p := fun c => decide (c.ty = ti))
            (l := rest) (a := c0) (by simpa using h)
          rw [this] at hf
          exact Option.some.inj hf
        subst hc0
        simp only [removeFirstTy, if_pos h]
        rcases List.mem_cons.mp h2 with h3 | h3
        · subst h3
          exact absurd rfl hne
        · exact h3
      · have hf2 : rest.find? (fun c => c.ty = ti) = some c := by
          have := List.find?_cons_of_neg (p := fun c => decide (c.ty = ti))
            (l := rest) (a := c0) (by simpa using h)
          rwa [this] at hf
        simp only [removeFirstTy, if_neg h]
        rcases List.mem_cons.mp h2 with h3 | h3
        · exact h3 ▸ List.mem_cons_self c0 _
        · exact List.mem_cons_of_mem c0 (ih hf2 h3)

theorem wf_init : Entity.init.WF := by
  refine ⟨?_, ?_, ?_, ?_⟩ <;> simp [Entity.init]

theorem wf_addComponent (e : Entity) (ti : Nat) (h : e.WF) :
    (e.addComponent ti).WF := by
  obtain ⟨hn, hb, hk, hm⟩ := h
  refine ⟨?_, ?_, ?_, ?_⟩
  · rw [Entity.addComponent]
    simp only [List.map_append]
    rw [List.nodup_append]
    refine ⟨hn, List.nodup_singleton _, ?_⟩
    intro x hx hx2
    rcases List.mem_map.mp hx with ⟨c, hc, h2⟩
    simp only [List.map_cons, List.map_nil, List.mem_singleton, mkComponent] at hx2
    have := hb c hc
    omega
  · intro c hc
    rcases List.mem_append.mp hc with h2 | h2
    · have := hb c h2
      simp only [Entity.addComponent]
      omega
    · simp only [List.mem_singleton] at h2
      subst h2
      simp [Entity.addComponent, mkComponent]
  · exact hk
  · intro kv hkv
    rcases hm kv hkv with ⟨c, hc, h2⟩
    exact ⟨c, List.mem_append_left _ hc, h2⟩

theorem wf_removeComponent (e : Entity) (ti : Nat) (h : e.WF) :
    (e.removeComponent ti).WF := by
  obtain ⟨hn, hb, hk, hm⟩ := h
  rw [Entity.removeComponent]
  cases hf : e.components.find? (fun c => c.ty = ti) with
  | none => exact ⟨hn, hb, hk, hm⟩
  | some c =>
      have hsub := (removeFirstTy_sublist e.components ti).map Component.id
      refine ⟨hn.sublist hsub, ?_, keys_nodup_aerase _ _ hk, ?_⟩
      · intro c2 hc2
        exact hb c2 ((removeFirstTy_sublist e.components ti).mem hc2)
      · intro kv hkv
        have hmem : kv ∈ e.compActiveMap := mem_aerase hkv
        have hne : kv.1 ≠ c.id := mem_aerase_ne hk hkv
        rcases hm kv hmem with ⟨c2, hc2, h2⟩
        refine ⟨c2, mem_removeFirstTy_of_id_ne hf hc2 ?_, h2⟩
        rw [h2]
        exact hne

theorem wf_setActive (e : Entity) (b : Bool) (h : e.WF) :
    (e.setActive b).WF := by
  obtain ⟨hn, hb, hk, hm⟩ := h
  cases b with
  | true =>
      refine ⟨?_, ?_, ?_, ?_⟩
      · rw [setActive_true_components, ids_restoreAll]
        exact hn
      · intro c hc
        have : c.id ∈ (e.setActive true).components.map Component.id :=
          List.mem_map.mpr ⟨c, hc, rfl⟩
        rw [setActive_true_components, ids_restoreAll] at this
        rcases List.mem_map.mp this with ⟨c0, hc0, h2⟩
        rw [setActive_nextId, ← h2]
        exact hb c0 hc0
      · rw [setActive_true_map]
        exact hk
      · intro kv hkv
        rw [setActive_true_map] at hkv
        rcases hm kv hkv with ⟨c0, hc0, h2⟩
        have : kv.1 ∈ (e.setActive true).components.map Component.id := by
          rw [setActive_true_components, ids_restoreAll]
          exact List.mem_map.mpr ⟨c0, hc0, h2⟩
        rcases List.mem_map.mp this with ⟨c2, hc2, h3⟩
        exact ⟨c2, hc2, h3⟩
  | false =>
      refine ⟨?_, ?_, ?_, ?_⟩
      · rw [setActive_false_components, ids_inactive]
        exact hn
      · intro c hc
        rw [setActive_false_components] at hc
        rcases List.mem_map.mp hc with ⟨c0, hc0, h2⟩
        rw [setActive_nextId, ← h2]
        exact hb c0 hc0
      · rw [setActive_false_map]
        exact snapMap_keys_nodup _ _ hk
      · intro kv hkv
        rw [setActive_false_map] at hkv
        have hkey : kv.1 ∈ (snapMap e.compActiveMap e.components).map Prod.fst :=
          List.mem_map.mpr ⟨kv, hkv, rfl⟩
        have hor := mem_keys_snapMap e.components e.compActiveMap kv.1 hkey
        have hid : kv.1 ∈ e.components.map Component.id := by
          rcases hor with h2 | h2
          · rcases List.mem_map.mp h2 with ⟨kv2, hkv2, h3⟩
            rcases hm kv2 hkv2 with ⟨c0, hc0, h4⟩
            exact List.mem_map.mpr ⟨c0, hc0, h4.trans h3⟩
          · exact h2
        have : kv.1 ∈ (e.setActive false).components.map Component.id := by
          rw [setActive_false_components, ids_inactive]
          exact hid
        rcases List.mem_map.mp this with ⟨c2, hc2, h3⟩
        exact ⟨c2, hc2, h3⟩

theorem wf_compSetActive (e : Entity) (k : Nat) (b : Bool) (h : e.WF) :
    (e.compSetActive k b).WF := by
  obtain ⟨hn, hb, hk, hm⟩ := h
  have hids : (e.compSetActive k b).components.map Component.id
      = e.components.map Component.id := ids_restoreOne e.components k b
  refine ⟨?_, ?_, hk, ?_⟩
  · rw [hids]
    exact hn
  · intro c hc
    have : c.id ∈ (e.compSetActive k b).components.map Component.id :=
      List.mem_map.mpr ⟨c, hc, rfl⟩
    rw [hids] at this
    rcases List.mem_map.mp this with ⟨c0, hc0, h2⟩
    rw [← h2]
    exact hb c0 hc0
  · intro kv hkv
    rcases hm kv hkv with ⟨c0, hc0, h2⟩
    have : kv.1 ∈ (e.compSetActive k b).components.map Component.id := by
      rw [hids]
      exact List.mem_map.mpr ⟨c0, hc0, h2⟩
    rcases List.mem_map.mp this with ⟨c2, hc2, h3⟩
    exact ⟨c2, hc2, h3⟩

theorem wf_applyOp (e : Entity) (op : Op) (h : e.WF) : (e.applyOp op).WF := by
  cases op with
  | addComp ty => exact wf_addComponent e ty h
  | removeComp ty => exact wf_removeComponent e ty h
  | entSetActive b => exact wf_setActive e b h
  | compSetActive k b => exact wf_compSetActive e k b h

theorem wf_foldl (ops : List Op) (e : Entity) (h : e.WF) :
    (ops.foldl Entity.applyOp e).WF := by
  induction ops generalizing e with
  | nil => exact h
  | cons op rest ih => exact ih _ (wf_applyOp e op h)

/-- Every Entity state reachable through the public interface is
well-formed; in particular every restoration-map key is a currently owned
component. -/
theorem wf_run (ops : List Op) : (Entity.run ops).WF :=
  wf_foldl ops Entity.init wf_init

/-- Claim C2: `removeComponent<T>` removes the first component of concrete
type `T` and erases the saved-active-state entry for that component from
the restoration map, and is a no-op when no component of type `T` exists;
consequently, on every Entity reachable through the public interface,
every key of the restoration map is a component the Entity currently owns,
so a resume never restores a stale flag onto an unrelated component. -/
theorem claim_C2 (ops : List Op) (ti : Nat) :
    ((Entity.run ops).components.find? (fun c => c.ty = ti) = none →
      (Entity.run ops).removeComponent ti = Entity.run ops)
    ∧ (∀ c, (Entity.run ops).components.find? (fun c => c.ty = ti) = some c →
        ((Entity.run ops).removeComponent ti).components
            = removeFirstTy (Entity.run ops).components ti
        ∧ ((Entity.run ops).removeComponent ti).compActiveMap
            = aerase (Entity.run ops).compActiveMap c.id)
    ∧ (∀ kv ∈ ((Entity.run ops).removeComponent ti).compActiveMap,
        ∃ c ∈ ((Entity.run ops).removeComponent ti).components, c.id = kv.1) := by
  refine ⟨?_, ?_, ?_⟩
  · intro h
    rw [Entity.removeComponent, h]
  · intro c h
    rw [Entity.removeComponent, h]
    exact ⟨rfl, rfl⟩
  · exact (wf_removeComponent (Entity.run ops) ti (wf_run ops)).2.2.2

/-- Witness for C2: removing an absent type from a one-component Entity is
a no-op, and the restoration-map-keys-are-owned invariant holds there. -/
theorem claim_C2_witness :
    ((Entity.run [Op.addComp 0]).removeComponent 5 = Entity.run [Op.addComp 0])
    ∧ (∀ kv ∈ ((Entity.run [Op.addComp 0]).removeComponent 5).compActiveMap,
        ∃ c ∈ ((Entity.run [Op.addComp 0]).removeComponent 5).components, c.id = kv.1) :=
  ⟨(claim_C2 [Op.addComp 0] 5).1 (by decide), (claim_C2 [Op.addComp 0] 5).2.2⟩

/-! Component lookup: add/get/remove interaction. -/

theorem find?_append_none {α : Type} {p : α → Bool} {l1 : List α}
    (h : l1.find? p = none) (l2 : List α) : (l1 ++ l2).find? p = l2.find? p := by
  induction l1 with
  | nil => rfl
  | cons a rest ih =>
      rcases hp : p a with hf | ht
      · rw [List.find?_cons_of_neg _ (by simp [hp]), List.cons_append,
          List.find?_cons_of_neg _ (by simp [hp])] at *
        exact ih h
      · rw [List.find?_cons_of_pos _ (by simp [hp])] at h
        cases h

theorem find?_removeFirstTy_of_count_le_one {cs : List Component} {ti : Nat}
    (h : cs.countP (fun c => c.ty = ti) ≤ 1) :
    (removeFirstTy cs ti).find? (fun c => c.ty = ti) = none := by
  induction cs with
  | nil => rfl
  | cons c0 rest ih =>
      by_cases hp : c0.ty = ti
      · simp only [removeFirstTy, if_pos hp]
        rw [List.countP_cons_of_pos _ _ (by simpa using hp)] at h
        have h0 : rest.countP (fun c => decide (c.ty = ti)) = 0 := by omega
        rw [List.find?_eq_none]
        intro x hx
        have := (List.countP_eq_zero.mp h0) x hx
        simpa using this
      · simp only [removeFirstTy, if_neg hp]
        rw [List.countP_cons_of_neg _ _ (by simpa using hp)] at h
        rw [List.find?_cons_of_neg _ (by simpa using hp)]
        exact ih h

/-- Claim C6 as stated is refuted when a component of the same concrete
type is already present: `getComponent<T>` returns the first match, so
after adding a second `T` it still returns the earlier component rather
than the one just added, and after `removeComponent<T>` (which removes the
first match) `getComponent<T>` still finds the remaining duplicate instead
of returning null. -/
theorem claim_C6_counterexample :
    ((Entity.init.addComponent 7).addComponent 7).getComponent 7
        ≠ some (mkComponent (Entity.init.addComponent 7).nextId 7)
    ∧ (((Entity.init.addComponent 7).addComponent 7).removeComponent 7).getComponent 7
        ≠ none := by
  refine ⟨?_, ?_⟩ <;> decide

/-- Claim C6 (amended): for every Entity `E` holding no component of
concrete type `T`, `addComponent<T>()` followed by `getComponent<T>()`
returns the component just added (same identity); and for every Entity
holding at most one component of concrete type `T`, after
`removeComponent<T>()` a subsequent `getComponent<T>()` returns the
not-found signal (null). -/
theorem claim_C6 (e : Entity) (ti : Nat) :
    (e.getComponent ti = none →
      (e.addComponent ti).getComponent ti = some (mkComponent e.nextId ti))
    ∧ (e.components.countP (fun c => c.ty = ti) ≤ 1 →
      (e.removeComponent ti).getComponent ti = none) := by
  refine ⟨?_, ?_⟩
  · intro h
    rw [Entity.getComponent] at h
    rw [Entity.getComponent, Entity.addComponent]
    simp only
    rw [find?_append_none h]
    rw [List.find?_cons_of_pos _ (by simp [mkComponent])]
  · intro h
    rw [Entity.removeComponent]
    cases hf : e.components.find? (fun c => c.ty = ti) with
    | none => exact hf
    | some c =>
        simp only [Entity.getComponent]
        exact find?_removeFirstTy_of_count_le_one h

/-- Witness for the amended C6 at a concrete one-component Entity. -/
theorem claim_C6_witness :
    ((Entity.init.addComponent 3).getComponent 9 = none
      ∧ ((Entity.init.addComponent 3).addComponent 9).getComponent 9
          = some (mkComponent (Entity.init.addComponent 3).nextId 9))
    ∧ ((Entity.init.addComponent 3).components.countP (fun c => c.ty = 3) ≤ 1
      ∧ ((Entity.init.addComponent 3).removeComponent 3).getComponent 3 = none) :=
  ⟨⟨by decide, (claim_C6 (Entity.init.addComponent 3) 9).1 (by decide)⟩,
   ⟨by decide, (claim_C6 (Entity.init.addComponent 3) 3).2 (by decide)⟩⟩

/-- Claim C10 (implicit): `getComponent<T>` and `removeComponent<T>` match
components by exact dynamic-type equality with `T` (a component whose
concrete type tag differs from `T`'s — in particular a strict subclass of
`T`, which has its own distinct dynamic type — is never returned and never
removed), and new components are constructed with their active flag true. -/
theorem claim_C10 (e : Entity) (ti ti2 : Nat) :
    (∀ c, e.getComponent ti = some c → c.ty = ti)
    ∧ (∀ c ∈ e.components, c.ty ≠ ti → c ∈ (e.removeComponent ti).components)
    ∧ (e.addComponent ti2).components = e.components ++ [mkComponent e.nextId ti2]
    ∧ (mkComponent e.nextId ti2).active = true := by
  refine ⟨?_, ?_, rfl, rfl⟩
  · intro c hc
    have := List.find?_some hc
    simpa using this
  · intro c hc hne
    rw [Entity.removeComponent]
    cases hf : e.components.find? (fun c => c.ty = ti) with
    | none => exact hc
    | some c2 => exact mem_removeFirstTy_of_ty_ne hc hne

/-- Witness for C10 at a concrete one-component Entity. -/
theorem claim_C10_witness :
    (mkComponent 0 3).ty = 3
    ∧ mkComponent 0 3 ∈ ((Entity.init.addComponent 3).removeComponent 9).components
    ∧ ((Entity.init.addComponent 3).addComponent 4).components
        = (Entity.init.addComponent 3).components ++ [mkComponent 1 4]
    ∧ (mkComponent 1 4).active = true :=
  ⟨(claim_C10 (Entity.init.addComponent 3) 3 4).1 (mkComponent 0 3) (by decide),
   (claim_C10 (Entity.init.addComponent 3) 9 4).2.1 (mkComponent 0 3) (by decide) (by decide),
   (claim_C10 (Entity.init.addComponent 3) 9 4).2.2.1,
   (claim_C10 (Entity.init.addComponent 3) 9 4).2.2.2⟩

/-! The `initializeAllComponents` loop (src/EntityNoParent.cpp:12-16). -/

theorem foldl_trace (cs : List Component) (t : List Nat) :
    cs.foldl (fun t2 c => t2 ++ [c.id]) t = t ++ cs.map Component.id := by
  induction cs generalizing t with
  | nil => simp
  | cons c rest ih => simp [ih]

/-- Claim C8: `initializeAllComponents` invokes each owned component's
initialization hook exactly once, in container (insertion) order: the
trace of `initialize()` calls is exactly the component list in order. -/
theorem claim_C8 (e : Entity) :
    e.initAllComponents [] = e.components.map Component.id := by
  rw [Entity.initAllComponents, foldl_trace, List.nil_append]

/-! The event-dispatch mechanism (src/sde.h:51-67).

`EventHandler::registerFunc` is defined inline in the header; `handleEvent`
and `broadcast` are declared there but their translation unit is not among
the repository's source files, so those two bodies are modelled from the
spec.  An `EventHandler` instance is a `Nat` id; an event's concrete
runtime type (`typeid(ET)` / `typeid(*evnt)`) is a `Nat` tag; a registered
member function is a `Nat` tag; the wrapper's invocation
`(m_caller->*m_func)(evnt)` is observed as the (caller, function) pair.
In the source the map written by `registerFunc` is the invoked instance's
own `m_funcMap` and the pointer appended to the directory is `caller`;
the two coincide in the `registerFunc(this, &T::f)` usage pattern, and the
model identifies them. -/

/-- The dispatch state: each instance's own `m_funcMap` (src/sde.h:65),
keyed by instance id, and the process-wide static `m_receiverMap`
(src/sde.h:66) from event-type tag to the registration-ordered list of
receiver instances. -/
structure EventWorld where
  funcMaps : List (Nat × List (Nat × Nat))
  receiverMap : List (Nat × List Nat)
  deriving DecidableEq, Repr

/-- The state before any registration: every `m_funcMap` empty, the static
receiver directory empty. -/
def emptyWorld : EventWorld := { funcMaps := [], receiverMap := [] }

/-- The `m_funcMap` of one `EventHandler` instance (empty when the
instance never registered). -/
def instFuncMap (w : EventWorld) (i : Nat) : List (Nat × Nat) :=
  (alookup w.funcMaps i).getD []

/-- The `m_receiverMap` entry for one event-type tag (empty when no
instance ever registered for it). -/
def recvList (w : EventWorld) (et : Nat) : List Nat :=
  (alookup w.receiverMap et).getD []

/-- `EventHandler::registerFunc<T, ET>` (src/sde.h:55-61) invoked by
instance `caller` for event type `et` with member function `f`:
`m_funcMap[ti] = make_shared<FuncWrapper>(caller, func)` replaces any
previous binding for `et`, and `m_receiverMap[ti].emplace_back(caller)`
appends the caller to the process-wide receiver list for `et`. -/
def registerFunc (w : EventWorld) (caller et f : Nat) : EventWorld :=
  { funcMaps := ainsert w.funcMaps caller (ainsert (instFuncMap w caller) et f)
    receiverMap := ainsert w.receiverMap et (recvList w et ++ [caller]) }

/-- Modelled from the spec: `EventHandler::handleEvent` is declared at
src/sde.h:62 but its defining translation unit is not among the
repository's source files.  Per the spec it looks up the instance's own
handler table by the event's concrete runtime type; if found it invokes
the registered function synchronously with the event, otherwise it is a
silent no-op.  The returned trace lists the invocations performed. -/
def handleEvent (w : EventWorld) (i : Nat) (et : Nat) : List (Nat × Nat) :=
  match alookup (instFuncMap w i) et with
  | some f => [(i, f)]
  | none => []

/-- Modelled from the spec: `EventHandler::broadcast` is declared at
src/sde.h:63 but its defining translation unit is not among the
repository's source files.  Per the spec it looks up the global receiver
list for the event's concrete runtime type and invokes `handleEvent` on
every listed instance, in registration order; an event type nobody
registered for is delivered to nobody and is not an error. -/
def broadcast (w : EventWorld) (et : Nat) : List (Nat × Nat) :=
  match alookup w.receiverMap et with
  | some receivers => receivers.foldl (fun t i => t ++ handleEvent w i et) []
  | none => []

theorem instFuncMap_registerFunc_self (w : EventWorld) (caller et f : Nat) :
    instFuncMap (registerFunc w caller et f) caller
      = ainsert (instFuncMap w caller) et f := by
  rw [instFuncMap, registerFunc]
  simp only
  rw [alookup_ainsert, if_pos rfl, Option.getD_some]

theorem recvList_registerFunc (w : EventWorld) (caller et f : Nat) :
    recvList (registerFunc w caller et f) et = recvList w et ++ [caller] := by
  rw [recvList, registerFunc]
  simp only
  rw [alookup_ainsert, if_pos rfl, Option.getD_some]

/-- Claim C3: `registerFunc` replaces any previous binding for that
(instance, event-type) pair — at most one handler per pair ever exists,
others' bindings are untouched — and each call appends the instance once
to the process-wide receiver directory entry for the type, so repeated
registration for the same type produces duplicate directory entries. -/
theorem claim_C3 (w : EventWorld) (i et f g : Nat) :
    alookup (instFuncMap (registerFunc w i et f) i) et = some f
    ∧ (∀ et2, et2 ≠ et →
        alookup (instFuncMap (registerFunc w i et f) i) et2
          = alookup (instFuncMap w i) et2)
    ∧ (∀ j, j ≠ i → instFuncMap (registerFunc w i et f) j = instFuncMap w j)
    ∧ (∀ et2, et2 ≠ et → recvList (registerFunc w i et f) et2 = recvList w et2)
    ∧ recvList (registerFunc w i et f) et = recvList w et ++ [i]
    ∧ recvList (registerFunc (registerFunc w i et f) i et g) et
        = recvList w et ++ [i] ++ [i] := by
  refine ⟨?_, ?_, ?_, ?_, recvList_registerFunc w i et f, ?_⟩
  · rw [instFuncMap_registerFunc_self, alookup_ainsert, if_pos rfl]
  · intro et2 hne
    rw [instFuncMap_registerFunc_self, alookup_ainsert, if_neg hne]
  · intro j hne
    rw [instFuncMap, registerFunc]
    simp only
    rw [alookup_ainsert, if_neg hne]
    rfl
  · intro et2 hne
    rw [recvList, registerFunc]
    simp only
    rw [alookup_ainsert, if_neg hne]
    rfl
  · rw [recvList_registerFunc, recvList_registerFunc]

/-- A dispatch state with two instances registered for event type 1, in
order, reached through `registerFunc`. -/
def demoWorld : EventWorld :=
  registerFunc (registerFunc emptyWorld 0 1 10) 2 1 20

/-- Witness for C3 at a concrete dispatch state. -/
theorem claim_C3_witness :
    alookup (instFuncMap (registerFunc demoWorld 0 1 30) 0) 1 = some 30
    ∧ alookup (instFuncMap (registerFunc demoWorld 0 1 30) 0) 4
        = alookup (instFuncMap demoWorld 0) 4
    ∧ instFuncMap (registerFunc demoWorld 0 1 30) 2 = instFuncMap demoWorld 2
    ∧ recvList (registerFunc demoWorld 0 1 30) 1 = recvList demoWorld 1 ++ [0]
    ∧ recvList (registerFunc (registerFunc demoWorld 0 1 30) 0 1 40) 1
        = recvList demoWorld 1 ++ [0] ++ [0] :=
  ⟨(claim_C3 demoWorld 0 1 30 40).1,
   (claim_C3 demoWorld 0 1 30 40).2.1 4 (by decide),
   (claim_C3 demoWorld 0 1 30 40).2.2.1 2 (by decide),
   (claim_C3 demoWorld 0 1 30 40).2.2.2.2.1,
   (claim_C3 demoWorld 0 1 30 40).2.2.2.2.2⟩

theorem mem_handleEvent_fst {w : EventWorld} {i et : Nat} {pr : Nat × Nat}
    (h : pr ∈ handleEvent w i et) : pr.1 = i := by
  rw [handleEvent] at h
  cases hl : alookup (instFuncMap w i) et with
  | none =>
      rw [hl] at h
      cases h
  | some f =>
      rw [hl] at h
      rcases List.mem_singleton.mp h with h2
      rw [h2]

theorem foldl_append_eq_flatten {α β : Type} (f : α → List β) (l : List α) (t : List β) :
    l.foldl (fun acc a => acc ++ f a) t = t ++ (l.map f).flatten := by
  induction l generalizing t with
  | nil => simp
  | cons a rest ih => simp [ih]

/-- Claim C4: `broadcast` looks up the process-wide receiver list for the
event's concrete runtime type and invokes `handleEvent` on every instance
that registered for that type, in registration order, and on no other
instance; with no registrations for that type it delivers to nobody and
is not an error. -/
theorem claim_C4 (w : EventWorld) (et : Nat) :
    broadcast w et = ((recvList w et).map fun i => handleEvent w i et).flatten
    ∧ (∀ pr ∈ broadcast w et, pr.1 ∈ recvList w et)
    ∧ (alookup w.receiverMap et = none → broadcast w et = []) := by
  have h1 : broadcast w et = ((recvList w et).map fun i => handleEvent w i et).flatten := by
    cases hl : alookup w.receiverMap et with
    | none => simp [broadcast, recvList, hl]
    | some receivers =>
        simp only [broadcast, recvList, hl, Option.getD_some]
        rw [foldl_append_eq_flatten, List.nil_append]
  refine ⟨h1, ?_, ?_⟩
  · intro pr hpr
    rw [h1] at hpr
    rcases List.mem_flatten.mp hpr with ⟨l2, hl2, hpr2⟩
    rcases List.mem_map.mp hl2 with ⟨i, hi, h3⟩
    rw [← h3] at hpr2
    rw [← mem_handleEvent_fst hpr2] at hi
    exact hi
  · intro h
    rw [broadcast, h]

/-- Witness for C4 at a concrete dispatch state: both registered receivers
are delivered to in order, and an unregistered type reaches nobody. -/
theorem claim_C4_witness :
    (broadcast demoWorld 1 = ((recvList demoWorld 1).map fun i => handleEvent demoWorld i 1).flatten
      ∧ ∀ pr ∈ broadcast demoWorld 1, pr.1 ∈ recvList demoWorld 1)
    ∧ (alookup demoWorld.receiverMap 9 = none ∧ broadcast demoWorld 9 = []) :=
  ⟨⟨(claim_C4 demoWorld 1).1, (claim_C4 demoWorld 1).2.1⟩,
   ⟨by decide, (claim_C4 demoWorld 9).2.2 (by decide)⟩⟩

/-- Claim C5: `handleEvent` looks up the instance's own handler table by
the event's concrete runtime type; registering a function for type `et`
and then handling an event of type `et` invokes exactly that function,
exactly once, on that instance; handling an event whose type has no
registered handler on the instance is a silent no-op. -/
theorem claim_C5 (w : EventWorld) (i et f et2 : Nat) :
    handleEvent (registerFunc w i et f) i et = [(i, f)]
    ∧ (alookup (instFuncMap w i) et2 = none → handleEvent w i et2 = []) := by
  refine ⟨?_, ?_⟩
  · rw [handleEvent, instFuncMap_registerFunc_self, alookup_ainsert, if_pos rfl]
  · intro h
    rw [handleEvent, h]

/-- Witness for C5 at a concrete dispatch state. -/
theorem claim_C5_witness :
    handleEvent (registerFunc demoWorld 0 1 30) 0 1 = [(0, 30)]
    ∧ (alookup (instFuncMap demoWorld 0) 9 = none ∧ handleEvent demoWorld 0 9 = []) :=
  ⟨(claim_C5 demoWorld 0 1 30 9).1,
   ⟨by decide, (claim_C5 demoWorld 0 1 30 9).2 (by decide)⟩⟩

/-! The live-object registry `AutoList<T>` (src/sde.h:116-143). -/

/-- One event in the life of the tracked population: construction of a new
`T` (running `AutoList<T>`'s constructor) or destruction of the live
object with identity `p` (running the destructor). -/
inductive RegEvent where
  | construct
  | destroy (p : Nat)
  deriving DecidableEq, Repr

/-- Erasure of the first element equal to `p`, mirroring `std::find` then
`erase` in `AutoList`'s destructor (src/sde.h:124-129); no-op when
absent. -/
def listRemoveFirst (l : List Nat) (p : Nat) : List Nat :=
  match l with
  | [] => []
  | x :: rest => if x = p then rest else x :: listRemoveFirst rest p

/-- The registry state: the static `AutoList<T>::m_ref` vector
(src/sde.h:139), the ghost list of currently-live objects (construction
order), and the allocator counter giving each new object a fresh
identity. -/
structure RegState where
  refs : List Nat
  live : List Nat
  nextId : Nat
  deriving DecidableEq, Repr

/-- The registry before any object exists. -/
def regInit : RegState := { refs := [], live := [], nextId := 0 }

/-- One step: the `AutoList` constructor pushes the new object onto
`m_ref` (src/sde.h:120-123) and the object becomes live; the destructor
erases the first element whose identity matches (src/sde.h:124-129) and
the object ceases to be live. -/
def regStep (s : RegState) (ev : RegEvent) : RegState :=
  match ev with
  | RegEvent.construct =>
      { refs := s.refs ++ [s.nextId], live := s.live ++ [s.nextId],
        nextId := s.nextId + 1 }
  | RegEvent.destroy p =>
      { refs := listRemoveFirst s.refs p, live := listRemoveFirst s.live p,
        nextId := s.nextId }

/-- The registry after an interleaved sequence of constructions and
destructions. -/
def regRun (evs : List RegEvent) : RegState := evs.foldl regStep regInit

/-- Validity of an event sequence from a state: every destruction destroys
a currently-live object (C++ destroys an object exactly once, while it
exists). -/
def validFrom (s : RegState) : List RegEvent → Bool
  | [] => true
  | RegEvent.construct :: rest => validFrom (regStep s RegEvent.construct) rest
  | RegEvent.destroy p :: rest =>
      s.live.contains p && validFrom (regStep s (RegEvent.destroy p)) rest

/-- The number of constructions in a sequence. -/
def countConstructs (evs : List RegEvent) : Nat :=
  evs.countP fun ev => match ev with | RegEvent.construct => true | _ => false

/-- The number of destructions in a sequence. -/
def countDestroys (evs : List RegEvent) : Nat :=
  evs.countP fun ev => match ev with | RegEvent.destroy _ => true | _ => false

/-- `AutoList<T>::size` (src/sde.h:130-133). -/
def AutoList.size (s : RegState) : Nat := s.refs.length

/-- `AutoList<T>::get` (src/sde.h:134-137): indexed access into `m_ref`
(the source indexes unchecked; the claim restricts to in-range indices). -/
def AutoList.get (s : RegState) (i : Nat) (h : i < s.refs.length) : Nat :=
  s.refs.get ⟨i, h⟩

theorem refs_eq_live_foldl (evs : List RegEvent) (s : RegState)
    (h : s.refs = s.live) :
    (evs.foldl regStep s).refs = (evs.foldl regStep s).live := by
  induction evs generalizing s with
  | nil => exact h
  | cons ev rest ih =>
      cases ev with
      | construct => exact ih _ (by simp [regStep, h])
      | destroy p => exact ih _ (by simp [regStep, h])

theorem length_listRemoveFirst_of_mem {l : List Nat} {p : Nat} (h : p ∈ l) :
    (listRemoveFirst l p).length + 1 = l.length := by
  induction l with
  | nil => cases h
  | cons x rest ih =>
      by_cases hx : x = p
      · simp [listRemoveFirst, hx]
      · have h2 : p ∈ rest := by
          rcases List.mem_cons.mp h with h3 | h3
          · exact absurd h3.symm hx
          · exact h3
        have ih2 := ih h2
        simp only [listRemoveFirst, if_neg hx, List.length_cons]
        omega

theorem reg_length (evs : List RegEvent) (s : RegState)
    (hv : validFrom s evs = true) (h : s.refs = s.live) :
    (evs.foldl regStep s).refs.length + countDestroys evs
      = s.refs.length + countConstructs evs := by
  induction evs generalizing s with
  | nil => simp [countDestroys, countConstructs]
  | cons ev rest ih =>
      cases ev with
      | construct =>
          have hv2 : validFrom (regStep s RegEvent.construct) rest = true := hv
          have ih2 := ih (regStep s RegEvent.construct) hv2 (by simp [regStep, h])
          have hstep : (regStep s RegEvent.construct).refs.length = s.refs.length + 1 := by
            simp [regStep]
          rw [hstep] at ih2
          simp only [List.foldl_cons]
          rw [countDestroys, countConstructs,
            List.countP_cons_of_neg _ _ (by simp),
            List.countP_cons_of_pos _ _ (by simp)]
          rw [countDestroys, countConstructs] at ih2
          omega
      | destroy p =>
          rw [validFrom, Bool.and_eq_true] at hv
          obtain ⟨hp, hv2⟩ := hv
          have hpm : p ∈ s.live := by simpa using hp
          have hpr : p ∈ s.refs := h ▸ hpm
          have ih2 := ih (regStep s (RegEvent.destroy p)) hv2 (by simp [regStep, h])
          have hstep : (regStep s (RegEvent.destroy p)).refs.length + 1 = s.refs.length := by
            simpa [regStep] using length_listRemoveFirst_of_mem hpr
          simp only [List.foldl_cons]
          rw [countDestroys, countConstructs,
            List.countP_cons_of_pos _ _ (by simp),
            List.countP_cons_of_neg _ _ (by simp)]
          rw [countDestroys, countConstructs] at ih2
          omega

/-- Claim C7: after any valid interleaved sequence of N constructions and
M destructions, `size()` equals N − M, and `get(i)` for every in-range
index returns a currently-live instance. -/
theorem claim_C7 (evs : List RegEvent) (hv : validFrom regInit evs = true) :
    AutoList.size (regRun evs) + countDestroys evs = countConstructs evs
    ∧ ∀ i (h : i < (regRun evs).refs.length),
        AutoList.get (regRun evs) i h ∈ (regRun evs).live := by
  refine ⟨?_, ?_⟩
  · have := reg_length evs regInit hv rfl
    simpa [AutoList.size, regRun, regInit] using this
  · intro i h
    have heq : (regRun evs).refs = (regRun evs).live :=
      refs_eq_live_foldl evs regInit rfl
    rw [AutoList.get, ← heq]
    exact List.get_mem _ _ _

/-- A sequence of three constructions interleaved with one destruction. -/
def demoEvs : List RegEvent :=
  [RegEvent.construct, RegEvent.construct, RegEvent.destroy 0, RegEvent.construct]

/-- Witness for C7 at a concrete event sequence. -/
theorem claim_C7_witness :
    validFrom regInit demoEvs = true
    ∧ (AutoList.size (regRun demoEvs) + countDestroys demoEvs = countConstructs demoEvs
      ∧ ∀ i (h : i < (regRun demoEvs).refs.length),
          AutoList.get (regRun demoEvs) i h ∈ (regRun demoEvs).live) :=
  ⟨by decide, claim_C7 demoEvs (by decide)⟩

end Sde
